import Mathlib

/-!
Verification of the AutoFlow CI/CD provisioning core.

Shallow embedding of the repository's TypeScript sources:
- `src/services/githubService.ts` (file upsert, variable/secret propagation,
  run-status reconciliation, deployment-run correlation),
- `src/components/PipelineConfigurator.tsx` (step orchestrator `runSteps`,
  the per-step executors, empty-value filtering),
- the restricted command-execution API handler (allowlisted CLI commands).

Remote I/O (fetch against the GitHub API, the server-side encryption
endpoint, process spawning) is modelled by explicit oracle parameters of
type `Except String _`; `.error e` embeds a thrown `Error` whose `message`
is `e`.  A thrown-and-caught error is matched via the JS idiom
`error.message.includes('404')`, embedded as substring search.
-/

set_option autoImplicit false

namespace AutoFlow

/-! ## String helpers (JS primitives used by the source) -/

/-- Embedding of `needle ⊑ haystack` over char lists, as in JS
`String.prototype.includes`: some suffix of the haystack starts with the
needle. -/
def listContainsSub (n : List Char) : List Char → Bool
  | [] => n.isEmpty
  | c :: rest => n.isPrefixOf (c :: rest) || listContainsSub n rest

/-- JS `haystack.includes(needle)`. -/
def strIncludes (needle haystack : String) : Bool :=
  listContainsSub needle.toList haystack.toList

/-- The source's not-found detection: `error.message.includes('404')`
(used in `createWorkflowFile`, `setRepositoryVariable`, `getFileContent`,
`getLatestWorkflowRun`). -/
def includes404 (msg : String) : Bool :=
  strIncludes "404" msg

/-- True when a JS string is empty after `trim()`: every char is whitespace.
`!s.trim()` in the handler's input validation. -/
def allWhitespace (s : String) : Bool :=
  s.toList.all Char.isWhitespace

/-- Accumulator-based splitting of a char list on whitespace runs,
producing the nonempty tokens.  `acc` holds the current token reversed. -/
def splitWsAux : List Char → List Char → List String
  | [], acc => if acc.isEmpty then [] else [String.mk acc.reverse]
  | c :: rest, acc =>
      if c.isWhitespace then
        if acc.isEmpty then splitWsAux rest []
        else String.mk acc.reverse :: splitWsAux rest []
      else splitWsAux rest (c :: acc)

/-- JS `command.trim().split(/\s+/)` for a command with at least one
non-whitespace char: the whitespace-separated tokens of the string.
For an all-whitespace string this returns `[]` (the handler rejects that
case before splitting, so the difference from JS `[""]` is unobservable). -/
def splitWs (s : String) : List String :=
  splitWsAux s.toList []

/-! ## Run-status reconciliation (`getLatestWorkflowRun`, githubService.ts) -/

/-- The `WorkflowRunStatus` enum from `types.ts`. -/
inductive WorkflowRunStatus where
  | Success
  | Failure
  | InProgress
  | Queued
  | Cancelled
  | Neutral
  | Skipped
  | TimedOut
  | ActionRequired
  | Completed
  | Unknown
deriving DecidableEq, Repr

/-- A workflow run as returned by the GitHub API (`GitHubWorkflowRun`
interface): `conclusion` is nullable, embedded as `Option`.  The `status`
field is kept as a raw string since the mapping code must tolerate
unrecognized values. -/
structure GitHubWorkflowRun where
  id : Nat
  status : String
  conclusion : Option String
  html_url : String
deriving DecidableEq, Repr

/-- The status-derivation logic of `getLatestWorkflowRun`
(githubService.ts lines 103-122): `if`/`else if` chain on `status`, then a
`switch` on `conclusion` with a `default` branch.  The `switch` is embedded
as an `if` chain, which has the same semantics for disjoint string cases. -/
def mapRunStatus (status : String) (conclusion : Option String) : WorkflowRunStatus :=
  if status = "in_progress" then .InProgress
  else if status = "queued" then .Queued
  else if status = "completed" then
    match conclusion with
    | none => .Completed
    | some c =>
        if c = "success" then .Success
        else if c = "failure" then .Failure
        else if c = "cancelled" then .Cancelled
        else if c = "skipped" then .Skipped
        else if c = "timed_out" then .TimedOut
        else if c = "neutral" then .Neutral
        else if c = "action_required" then .ActionRequired
        else .Completed
  else .Unknown

/-- Modelled from the spec: the table of section 4.6 of the specification,
row by row — queued, in_progress, the seven completed conclusions,
completed with other/null conclusion, and any other status.  Written from
the spec's words, to be compared with `mapRunStatus` (from the source). -/
def specDerivedStatus (status : String) (conclusion : Option String) : WorkflowRunStatus :=
  if status = "queued" then .Queued
  else if status = "in_progress" then .InProgress
  else if status = "completed" then
    if conclusion = some "success" then .Success
    else if conclusion = some "failure" then .Failure
    else if conclusion = some "cancelled" then .Cancelled
    else if conclusion = some "skipped" then .Skipped
    else if conclusion = some "timed_out" then .TimedOut
    else if conclusion = some "neutral" then .Neutral
    else if conclusion = some "action_required" then .ActionRequired
    else .Completed
  else .Unknown

/-- Result of `getLatestWorkflowRun` when a run is found. -/
structure RunSummary where
  status : WorkflowRunStatus
  url : String
  runId : Nat
deriving DecidableEq, Repr

/-- Embedding of `getLatestWorkflowRun` (githubService.ts lines 86-135).
The API request for `/actions/runs?per_page=1` is the oracle `api`; the
function returns the mapped summary of the first (most recent) run, `none`
when the list is empty, and `none` when the request throws (the `catch`
block returns `null` for every error). -/
def getLatestWorkflowRun (api : Except String (List GitHubWorkflowRun)) :
    Option RunSummary :=
  match api with
  | .error _ => none
  | .ok [] => none
  | .ok (latestRun :: _) =>
      some ⟨mapRunStatus latestRun.status latestRun.conclusion,
            latestRun.html_url, latestRun.id⟩

/-! ## Deployment-run correlation (`getDeploymentsForRepo`, githubService.ts) -/

/-- A deployment as listed by the deployments API, with the fields the
processing code reads.  Timestamps are epoch milliseconds
(`new Date(x).getTime()`). -/
structure DeploymentIn where
  id : Nat
  sha : String
  statuses_url : String
  created_at : Int
  updated_at : Int
deriving DecidableEq, Repr

/-- The enriched deployment built by `getDeploymentsForRepo`: latest
status, formatted duration, and the optionally correlated run id. -/
structure DeploymentOut where
  id : Nat
  sha : String
  status : String
  duration : String
  runId : Option Nat
deriving DecidableEq, Repr

/-- The run-correlation part of `getDeploymentsForRepo` (lines 153-164):
when `dep.sha` is truthy, query `/actions/runs?head_sha=SHA&per_page=1`
(oracle `runsFor`, applied to the deployment's commit SHA) and take the
first run's id; a failed query is caught (warn only) and an empty result
leaves `runId` undefined — both yield `none`. -/
def correlateRunId (runsFor : String → Except String (List GitHubWorkflowRun))
    (sha : String) : Option Nat :=
  if sha = "" then none
  else
    match runsFor sha with
    | .error _ => none
    | .ok [] => none
    | .ok (r :: _) => some r.id

/-- Per-deployment processing of `getDeploymentsForRepo` (lines 143-171):
fetch the statuses (oracle `statusesFor`, applied to the deployment's
`statuses_url`), derive latest status (default `pending`), compute the
duration string, correlate the run id.  A failure of the statuses fetch is
caught and the deployment dropped (`none`). -/
def processDeployment (statusesFor : String → Except String (List String))
    (runsFor : String → Except String (List GitHubWorkflowRun))
    (dep : DeploymentIn) : Option DeploymentOut :=
  match statusesFor dep.statuses_url with
  | .error _ => none
  | .ok statuses =>
      let latestStatus := match statuses with
        | [] => "pending"
        | s :: _ => s
      let durationMs : Int := dep.updated_at - dep.created_at
      let durationSec : Int := Int.fdiv durationMs 1000
      let durationMin : Int := Int.fdiv durationSec 60
      let secRem : Int := Int.tmod durationSec 60
      let duration : String :=
        if latestStatus = "in_progress" then "..."
        else s!"{durationMin}m {secRem}s"
      some ⟨dep.id, dep.sha, latestStatus, duration, correlateRunId runsFor dep.sha⟩

/-- Embedding of `getDeploymentsForRepo` (lines 138-178): process every
deployment, dropping those whose processing failed. -/
def getDeploymentsForRepo (statusesFor : String → Except String (List String))
    (runsFor : String → Except String (List GitHubWorkflowRun))
    (deps : List DeploymentIn) : List DeploymentOut :=
  deps.filterMap (processDeployment statusesFor runsFor)

/-! ## Workflow-file upsert (`createWorkflowFile`, githubService.ts) -/

/-- The metadata of an existing file returned by the contents API read. -/
structure FileMeta where
  sha : String
deriving DecidableEq, Repr

/-- The body of the `PUT /contents` write request built by
`createWorkflowFile`, with its optional `sha` field. -/
structure PutRequest where
  path : String
  message : String
  content : String
  branch : String
  sha : Option String
deriving DecidableEq, Repr

/-- The workflow path `.github/workflows/FILENAME` used for both the read
and the write. -/
def workflowPath (fileName : String) : String :=
  ".github/workflows/" ++ fileName

/-- Embedding of `createWorkflowFile` (githubService.ts lines 182-230).
`encode` stands for `btoa(unescape(encodeURIComponent(content)))` (a
browser primitive); `readFile path branch` is the
`GET /contents/path?ref=branch` oracle.  A successful result `.ok body`
means the `PUT` write was issued with `body`; `.error e` means the read
error propagated and no write was attempted.  An existing file's `sha` is
copied into the body when truthy; a read failure whose message contains
`404` is swallowed and the write proceeds without a `sha`; any other read
failure is re-thrown. -/
def createWorkflowFile (encode : String → String)
    (readFile : String → String → Except String FileMeta)
    (branch fileName content commitMessage : String) : Except String PutRequest :=
  let path := workflowPath fileName
  let encodedContent := encode content
  let base : PutRequest := ⟨path, commitMessage, encodedContent, branch, none⟩
  match readFile path branch with
  | .ok existingFile =>
      if existingFile.sha ≠ "" then .ok { base with sha := some existingFile.sha }
      else .ok base
  | .error e =>
      if includes404 e then .ok base
      else .error e

/-! ## Variable propagation (`setRepositoryVariable`, githubService.ts) -/

/-- How many `PATCH` (update) and `POST` (create) requests a variable
upsert issued. -/
structure VariableCalls where
  patchCalls : Nat
  postCalls : Nat
deriving DecidableEq, Repr

/-- Embedding of `setRepositoryVariable` (githubService.ts lines 233-270).
`patchResult` is the outcome of the `PATCH /actions/variables/NAME`
request, `postResult` of the `POST /actions/variables` request.  The
update is attempted first; only a failure whose message contains `404`
triggers the create fallback; any other failure is re-thrown.  The second
component records how many requests of each kind were issued. -/
def setRepositoryVariable (patchResult : Except String Unit)
    (postResult : Except String Unit) : Except String Unit × VariableCalls :=
  match patchResult with
  | .ok _ => (.ok (), ⟨1, 0⟩)
  | .error e =>
      if includes404 e then (postResult, ⟨1, 1⟩)
      else (.error e, ⟨1, 0⟩)

/-! ## Secret propagation (`setRepositorySecret`, githubService.ts) -/

/-- The repository public key returned by
`GET /actions/secrets/public-key`. -/
structure RepoPublicKey where
  key_id : String
  key : String
deriving DecidableEq, Repr

/-- How many public-key fetches, server-side encryption (sealing) calls,
and `PUT` secret upserts a secret propagation issued. -/
structure SecretCalls where
  publicKeyFetches : Nat
  encryptCalls : Nat
  secretPuts : Nat
deriving DecidableEq, Repr

/-- Embedding of `setRepositorySecret` (githubService.ts lines 282-325).
An empty `value` returns immediately (`if (!value) return;`): no
public-key fetch, no encryption call, no upsert.  Otherwise the public key
is fetched (`publicKeyResult`), the value sealed by the server-side
encryption endpoint (`encryptResult`, a non-ok response throws
`Failed to encrypt secret`), and the ciphertext with its key id sent via
`PUT /actions/secrets/NAME` (`putResult`).  The second component counts
the calls of each kind. -/
def setRepositorySecret (value : String)
    (publicKeyResult : Except String RepoPublicKey)
    (encryptResult : RepoPublicKey → Except String String)
    (putResult : String → String → Except String Unit) :
    Except String Unit × SecretCalls :=
  if value = "" then (.ok (), ⟨0, 0, 0⟩)
  else
    match publicKeyResult with
    | .error e => (.error e, ⟨1, 0, 0⟩)
    | .ok pk =>
        match encryptResult pk with
        | .error e => (.error ("Failed to encrypt secret: " ++ e), ⟨1, 1, 0⟩)
        | .ok encryptedValue => (putResult encryptedValue pk.key_id, ⟨1, 1, 1⟩)

/-! ## Step executors (`PipelineConfigurator.tsx`) -/

/-- The variable entries actually upserted by `executeVariablesStep`
(PipelineConfigurator.tsx lines 373-381): `Object.entries(variableValues)`
mapped with `if (value) setRepositoryVariable(...) else Promise.resolve()`
— only entries with a truthy (non-empty) value reach
`setRepositoryVariable`. -/
def executeVariablesStepCalls (variableValues : List (String × String)) :
    List (String × String) :=
  variableValues.filter (fun p => p.2 ≠ "")

/-- The secret entries actually propagated by `executeSecretsStep`
(PipelineConfigurator.tsx lines 383-391): `Object.entries(secretValues)`
mapped with `if (value) setRepositorySecret(...) else Promise.resolve()`
— only entries with a truthy (non-empty) value reach
`setRepositorySecret`. -/
def executeSecretsStepCalls (secretValues : List (String × String)) :
    List (String × String) :=
  secretValues.filter (fun p => p.2 ≠ "")

/-! ## Step orchestrator (`runSteps`, PipelineConfigurator.tsx) -/

/-- The three orchestrated steps, `keyof CommitProgress`. -/
inductive Step where
  | workflowFile
  | variables
  | secrets
deriving DecidableEq, Repr

/-- Position of a step in the fixed order
`['workflowFile', 'variables', 'secrets']` (`steps.indexOf`). -/
def stepIdx : Step → Nat
  | .workflowFile => 0
  | .variables => 1
  | .secrets => 2

/-- The fixed step order `['workflowFile', 'variables', 'secrets']`. -/
def stepsList : List Step :=
  [.workflowFile, .variables, .secrets]

/-- The `CommitProgressState` union
`'pending' | 'in-progress' | 'success' | 'error'`. -/
inductive CommitProgressState where
  | pending
  | inProgress
  | success
  | error
deriving DecidableEq, Repr

/-- The `CommitProgress` record: one state per step. -/
abbrev CommitProgress : Type := Step → CommitProgressState

/-- `initialCommitProgress`: every step `pending`. -/
def initialCommitProgress : CommitProgress := fun _ => .pending

/-- The spread update `{ ...prev, [step]: v }`. -/
def updateProgress (p : CommitProgress) (s : Step) (v : CommitProgressState) :
    CommitProgress :=
  fun t => if t = s then v else p t

/-- The zero-item skip condition of the loop body (line 416):
`(step === 'variables' && requiredVariables.length === 0) ||
(step === 'secrets' && !activeSecretsToSet)`.  `noRequiredVariables`
embeds `requiredVariables.length === 0` and `noActiveSecretsToSet` embeds
`!activeSecretsToSet`; both are loop-invariant in the source. -/
def stepSkipped (noRequiredVariables noActiveSecretsToSet : Bool) : Step → Bool
  | .workflowFile => false
  | .variables => noRequiredVariables
  | .secrets => noActiveSecretsToSet

/-- The observable outcome of one `runSteps` attempt: the final
`commitProgress` record, the final `commitError`, and the ordered list of
steps whose executor was invoked. -/
structure RunStepsResult where
  progress : CommitProgress
  commitError : Option String
  invoked : List Step

/-- The `for` loop of `runSteps` (lines 412-434) over the remaining steps.
A skipped step is marked `success` without invoking its executor; an
executed step is marked `in-progress`, then `success` on `.ok`; on
`.error e` the error is recorded, the step marked `error`, and the loop
returns — the remaining steps are not touched. -/
def runStepsLoop (exec : Step → Except String Unit) (skip : Step → Bool) :
    List Step → CommitProgress → List Step → RunStepsResult
  | [], prog, inv => ⟨prog, none, inv⟩
  | s :: rest, prog, inv =>
      if skip s then
        runStepsLoop exec skip rest (updateProgress prog s .success) inv
      else
        match exec s with
        | .ok _ => runStepsLoop exec skip rest (updateProgress prog s .success) (inv ++ [s])
        | .error e => ⟨updateProgress prog s .error, some e, inv ++ [s]⟩

/-- The reset of lines 404-410: steps at or after the starting index are
set back to `pending`; earlier steps keep their previous state. -/
def resetFrom (prev : CommitProgress) (startingStep : Step) : CommitProgress :=
  fun s => if stepIdx startingStep ≤ stepIdx s then .pending else prev s

/-- Embedding of `runSteps(startingStep)` (PipelineConfigurator.tsx lines
393-435).  `exec` maps each step to its executor's outcome
(`executeWorkflowFileStep` / `executeVariablesStep` /
`executeSecretsStep`); the two booleans embed the zero-item skip
conditions.  `setCommitError(null)` makes the recorded error start from
`none`; the loop runs over the suffix of the step list from the starting
index. -/
def runSteps (exec : Step → Except String Unit)
    (noRequiredVariables noActiveSecretsToSet : Bool)
    (prev : CommitProgress) (startingStep : Step) : RunStepsResult :=
  runStepsLoop exec (stepSkipped noRequiredVariables noActiveSecretsToSet)
    (stepsList.drop (stepIdx startingStep)) (resetFrom prev startingStep) []

/-- `handleRetry(step)` (lines 443-445): exactly `runSteps(step)` on the
current progress. -/
def handleRetry (exec : Step → Except String Unit)
    (noRequiredVariables noActiveSecretsToSet : Bool)
    (prev : CommitProgress) (step : Step) : RunStepsResult :=
  runSteps exec noRequiredVariables noActiveSecretsToSet prev step

/-- `handleConfirmSetup` (lines 437-441): reset to
`initialCommitProgress`, then `runSteps('workflowFile')`. -/
def handleConfirmSetup (exec : Step → Except String Unit)
    (noRequiredVariables noActiveSecretsToSet : Bool) : RunStepsResult :=
  runSteps exec noRequiredVariables noActiveSecretsToSet
    initialCommitProgress .workflowFile

/-- The specification's resume scenario: StepRecords
[artifact: success, variables: error, secrets: pending]. -/
def retryScenarioProgress : CommitProgress := fun st =>
  match st with
  | .workflowFile => .success
  | .variables => .error
  | .secrets => .pending

/-! ## Restricted command-execution handler (api/execute-command) -/

/-- The observable outcome of the handler: either an error response sent
with an HTTP status (before any process starts), or a child process
spawned for `cli` with `args`. -/
inductive HandlerResponse where
  | rejected (status : Nat) (error : String)
  | spawned (cli : String) (args : List String)
deriving DecidableEq, Repr

/-- The `COMMAND_ALLOWLIST` of the handler: per CLI tool, the list of
allowlisted subcommand token prefixes. -/
def COMMAND_ALLOWLIST (cli : String) : List (List String) :=
  if cli = "vercel" then
    [["projects", "list"], ["domains", "ls"], ["logs"], ["deployments", "ls"]]
  else if cli = "railway" then
    [["projects"], ["services"], ["logs"], ["status"]]
  else []

/-- Embedding of the command-execution handler.  `command`/`token` are the
request body fields (`none` embeds a non-string value).  The method must
be `POST`; `command` and `token` must be non-empty strings after `trim()`;
the command is split on whitespace into `cli :: args`; `cli` must be
`vercel` or `railway`; and `args` must extend one of the allowlisted token
prefixes (`allowedCmdParts.every((part, index) => args[index] === part)`,
i.e. `List.isPrefixOf`).  Only then is a child process spawned; every
other path returns an error response first. -/
def handler (method : String) (command token : Option String) : HandlerResponse :=
  if method ≠ "POST" then .rejected 405 "Method Not Allowed"
  else
    match command with
    | none => .rejected 400 "Command must be a non-empty string."
    | some c =>
        if allWhitespace c then .rejected 400 "Command must be a non-empty string."
        else
          match token with
          | none => .rejected 400 "A valid token must be provided."
          | some t =>
              if allWhitespace t then .rejected 400 "A valid token must be provided."
              else
                match splitWs c with
                | [] => .rejected 400 "Invalid CLI tool specified."
                | cli :: args =>
                    if cli = "vercel" ∨ cli = "railway" then
                      if (COMMAND_ALLOWLIST cli).any (fun allowedCmdParts =>
                          allowedCmdParts.isPrefixOf args) then
                        .spawned cli args
                      else .rejected 403 "Command not allowed."
                    else .rejected 400 "Invalid CLI tool specified."

/-! ## Theorems -/

/-- C7: the run-status reconciliation of `getLatestWorkflowRun` maps every
external `(status, conclusion)` pair exactly as the specification's
section 4.6 table lists: queued to Queued, in_progress to InProgress, the
seven recognized completed conclusions to their statuses, completed with
any other or null conclusion to Completed, and any unrecognized external
status to Unknown — totally, hence without throwing. -/
theorem mapRunStatus_eq_specDerivedStatus :
    ∀ (status : String) (conclusion : Option String),
      mapRunStatus status conclusion = specDerivedStatus status conclusion := by
  intro status conclusion
  unfold mapRunStatus specDerivedStatus
  by_cases h1 : status = "in_progress"
  · subst h1; rfl
  · by_cases h2 : status = "queued"
    · subst h2; rfl
    · by_cases h3 : status = "completed"
      · subst h3
        cases conclusion with
        | none => rfl
        | some c =>
            simp only [String.reduceEq, if_false, if_true, Option.some.injEq,
              reduceIte]
      · simp [h1, h2, h3]

/-- C10: `getLatestWorkflowRun` is total at its public interface: a failed
API request yields `none` (the catch block), an empty run list yields
`none`, and a non-empty run list yields the mapped summary of its first
(single most recent, `per_page=1`) run — it never throws. -/
theorem getLatestWorkflowRun_total :
    ∀ (api : Except String (List GitHubWorkflowRun)),
      (∀ e, api = .error e → getLatestWorkflowRun api = none) ∧
      (api = .ok [] → getLatestWorkflowRun api = none) ∧
      (∀ r rest, api = .ok (r :: rest) →
        getLatestWorkflowRun api =
          some ⟨mapRunStatus r.status r.conclusion, r.html_url, r.id⟩) := by
  intro api
  refine ⟨?_, ?_, ?_⟩
  · intro e he; subst he; rfl
  · intro he; subst he; rfl
  · intro r rest he; subst he; rfl

/-- Witness for C10 at a concrete input: a completed/success run is
summarized with status Success. -/
theorem getLatestWorkflowRun_total_witness :
    getLatestWorkflowRun (.ok [⟨7, "completed", some "success", "u"⟩]) =
      some ⟨.Success, "u", 7⟩ := by
  have h := (getLatestWorkflowRun_total
    (.ok [⟨7, "completed", some "success", "u"⟩])).2.2
    ⟨7, "completed", some "success", "u"⟩ [] rfl
  exact h.trans (by decide)

/-- C3: `createWorkflowFile` first reads the file at path@branch; an
existing file's content identifier (sha) is captured and included in the
write body; a not-found read failure is swallowed and the write proceeds
without an identifier; any other read failure propagates and no write is
attempted.  The write thus carries the identifier last observed, or none
for a fresh file. -/
theorem createWorkflowFile_read_then_conditional_write :
    ∀ (encode : String → String) (readFile : String → String → Except String FileMeta)
      (branch fileName content commitMessage : String),
      (∀ f, readFile (workflowPath fileName) branch = .ok f → f.sha ≠ "" →
        createWorkflowFile encode readFile branch fileName content commitMessage =
          .ok ⟨workflowPath fileName, commitMessage, encode content, branch, some f.sha⟩) ∧
      (∀ e, readFile (workflowPath fileName) branch = .error e → includes404 e = true →
        createWorkflowFile encode readFile branch fileName content commitMessage =
          .ok ⟨workflowPath fileName, commitMessage, encode content, branch, none⟩) ∧
      (∀ e, readFile (workflowPath fileName) branch = .error e → includes404 e = false →
        createWorkflowFile encode readFile branch fileName content commitMessage =
          .error e) := by
  intro encode readFile branch fileName content commitMessage
  refine ⟨?_, ?_, ?_⟩
  · intro f hread hsha
    simp [createWorkflowFile, hread, hsha]
  · intro e hread h404
    simp [createWorkflowFile, hread, h404]
  · intro e hread h404
    simp [createWorkflowFile, hread, h404]

/-- Witness for C3 at concrete inputs: an existing file with sha `abc`
yields a write carrying `some "abc"`. -/
theorem createWorkflowFile_read_then_conditional_write_witness :
    createWorkflowFile id (fun _ _ => .ok ⟨"abc"⟩) "main" "wf.yml" "content" "msg" =
      .ok ⟨workflowPath "wf.yml", "msg", "content", "main", some "abc"⟩ :=
  (createWorkflowFile_read_then_conditional_write id (fun _ _ => .ok ⟨"abc"⟩)
    "main" "wf.yml" "content" "msg").1 ⟨"abc"⟩ rfl (by decide)

/-- C4: `setRepositoryVariable` always issues exactly one update (PATCH)
first; a create (POST) follows if and only if the update failed with a
message containing 404, and then exactly one create is issued; any other
update failure propagates unchanged with no create attempted. -/
theorem setRepositoryVariable_update_then_create_on_404 :
    ∀ (patchResult postResult : Except String Unit),
      (setRepositoryVariable patchResult postResult).2.patchCalls = 1 ∧
      (patchResult = .ok () →
        setRepositoryVariable patchResult postResult = (.ok (), ⟨1, 0⟩)) ∧
      (∀ e, patchResult = .error e → includes404 e = true →
        setRepositoryVariable patchResult postResult = (postResult, ⟨1, 1⟩)) ∧
      (∀ e, patchResult = .error e → includes404 e = false →
        setRepositoryVariable patchResult postResult = (.error e, ⟨1, 0⟩)) := by
  intro patchResult postResult
  refine ⟨?_, ?_, ?_, ?_⟩
  · cases patchResult with
    | ok u => rfl
    | error e =>
        by_cases h : includes404 e = true
        · simp [setRepositoryVariable, h]
        · simp [setRepositoryVariable, h]
  · intro h; subst h; rfl
  · intro e h h404; subst h; simp [setRepositoryVariable, h404]
  · intro e h h404; subst h; simp [setRepositoryVariable, h404]

/-- Witness for C4 at concrete inputs: a 404-failing update falls back to
the create, whose (successful) outcome is returned, with one PATCH and one
POST issued. -/
theorem setRepositoryVariable_update_then_create_on_404_witness :
    setRepositoryVariable (.error "GitHub API Error: 404 Not Found - x") (.ok ()) =
      (.ok (), ⟨1, 1⟩) :=
  (setRepositoryVariable_update_then_create_on_404
    (.error "GitHub API Error: 404 Not Found - x") (.ok ())).2.2.1
    "GitHub API Error: 404 Not Found - x" rfl (by decide)

/-- C5: a secret with empty plaintext is never propagated:
`setRepositorySecret` with empty value performs zero public-key fetches,
zero sealing calls and zero secret upserts, and `executeSecretsStep`
never passes an empty-valued entry to `setRepositorySecret` in the first
place. -/
theorem setRepositorySecret_empty_value_skipped :
    ∀ (publicKeyResult : Except String RepoPublicKey)
      (encryptResult : RepoPublicKey → Except String String)
      (putResult : String → String → Except String Unit)
      (secretValues : List (String × String)) (name : String),
      setRepositorySecret "" publicKeyResult encryptResult putResult =
        (.ok (), ⟨0, 0, 0⟩) ∧
      (name, "") ∉ executeSecretsStepCalls secretValues := by
  intro publicKeyResult encryptResult putResult secretValues name
  refine ⟨rfl, ?_⟩
  simp [executeSecretsStepCalls, List.mem_filter]

/-- Witness for C5 at concrete inputs (closing the membership negation):
the empty-valued secret issues no calls and is filtered out of the step. -/
theorem setRepositorySecret_empty_value_skipped_witness :
    setRepositorySecret "" (.ok ⟨"kid", "key"⟩) (fun _ => .ok "ct")
        (fun _ _ => .ok ()) = (.ok (), ⟨0, 0, 0⟩) ∧
      ("API_KEY", "") ∉ executeSecretsStepCalls [("API_KEY", "")] :=
  setRepositorySecret_empty_value_skipped (.ok ⟨"kid", "key"⟩) (fun _ => .ok "ct")
    (fun _ _ => .ok ()) [("API_KEY", "")] "API_KEY"

/-- C6 (counterexample): the claim that the variables step applies a
variable even when its value is the empty string is false on the code:
`executeVariablesStep` guards each entry with `if (value)`, so the entry
`("NODE_VERSION", "")` is not among the issued variable upserts. -/
theorem executeVariablesStep_drops_empty_value :
    ("NODE_VERSION", "") ∉ executeVariablesStepCalls [("NODE_VERSION", "")] := by
  decide

/-- C6 (amended): the variables step applies exactly the variables whose
value is non-empty; a variable with empty value is skipped, just as empty
secrets are. -/
theorem executeVariablesStep_applies_nonempty_only :
    ∀ (variableValues : List (String × String)) (name value : String),
      ((name, value) ∈ variableValues → value ≠ "" →
        (name, value) ∈ executeVariablesStepCalls variableValues) ∧
      (name, "") ∉ executeVariablesStepCalls variableValues := by
  intro variableValues name value
  constructor
  · intro hmem hval
    simp [executeVariablesStepCalls, List.mem_filter, hmem, hval]
  · simp [executeVariablesStepCalls, List.mem_filter]

/-- Witness for the amended C6 at concrete inputs: the non-empty variable
is applied, the empty one is not. -/
theorem executeVariablesStep_applies_nonempty_only_witness :
    ("NODE_VERSION", "20") ∈
      executeVariablesStepCalls [("NODE_VERSION", "20"), ("EMPTY", "")] :=
  (executeVariablesStep_applies_nonempty_only
    [("NODE_VERSION", "20"), ("EMPTY", "")] "NODE_VERSION" "20").1
    (by decide) (by decide)

/-- C9: the deployment-run correlator queries runs filtered by the
deployment's commit SHA; with at least one match it returns the
deployment enriched with the most recent match's run id; with no match it
still returns the deployment (not an error), with `runId` absent. -/
theorem correlator_attaches_most_recent_or_none :
    ∀ (statusesFor : String → Except String (List String))
      (runsFor : String → Except String (List GitHubWorkflowRun))
      (dep : DeploymentIn) (sts : List String),
      statusesFor dep.statuses_url = .ok sts →
      dep.sha ≠ "" →
      (∀ r rest, runsFor dep.sha = .ok (r :: rest) →
        (processDeployment statusesFor runsFor dep).map (fun d => (d.id, d.runId)) =
          some (dep.id, some r.id)) ∧
      (runsFor dep.sha = .ok [] →
        (processDeployment statusesFor runsFor dep).map (fun d => (d.id, d.runId)) =
          some (dep.id, none)) := by
  intro statusesFor runsFor dep sts hstat hsha
  constructor
  · intro r rest hruns
    simp [processDeployment, hstat, correlateRunId, hsha, hruns]
  · intro hruns
    simp [processDeployment, hstat, correlateRunId, hsha, hruns]

/-- Witness for C9 at concrete inputs: a deployment with no matching run
is still returned, with no run id attached. -/
theorem correlator_attaches_most_recent_or_none_witness :
    (processDeployment (fun _ => .ok ["success"]) (fun _ => .ok [])
        ⟨1, "abc", "u", 0, 60000⟩).map (fun d => (d.id, d.runId)) =
      some (1, none) :=
  (correlator_attaches_most_recent_or_none (fun _ => .ok ["success"])
    (fun _ => .ok []) ⟨1, "abc", "u", 0, 60000⟩ ["success"] rfl (by decide)).2 rfl

/-- C1: in every execution of the orchestrator's loop, if the executor of
a reached, non-skipped step `s` fails (every step from the starting step
up to `s` being skipped or successful), then `s` is marked `error`, the
error is recorded in `commitError`, the loop halts, and every later step
in the fixed order keeps state `pending` with its executor never invoked.
In particular a workflowFile failure prevents the variables and secrets
executors from running. -/
theorem runSteps_halt_on_failure :
    ∀ (exec : Step → Except String Unit) (nv ns : Bool) (prev : CommitProgress)
      (start s : Step) (e : String),
      stepIdx start ≤ stepIdx s →
      stepSkipped nv ns s = false →
      (∀ t, stepIdx start ≤ stepIdx t → stepIdx t < stepIdx s →
        stepSkipped nv ns t = true ∨ exec t = .ok ()) →
      exec s = .error e →
      (runSteps exec nv ns prev start).progress s = .error ∧
      (runSteps exec nv ns prev start).commitError = some e ∧
      (∀ t, stepIdx s < stepIdx t →
        (runSteps exec nv ns prev start).progress t = .pending ∧
        t ∉ (runSteps exec nv ns prev start).invoked) := by
  intro exec nv ns prev start s e hle hns hpre hfail
  cases start
  · -- start = workflowFile
    cases s
    · -- s = workflowFile
      have hrun : runSteps exec nv ns prev .workflowFile =
          ⟨updateProgress (resetFrom prev .workflowFile) .workflowFile .error,
           some e, [.workflowFile]⟩ := by
        simp [runSteps, runStepsLoop, stepsList, stepIdx, stepSkipped, hfail]
      rw [hrun]
      refine ⟨by simp [updateProgress], rfl, ?_⟩
      intro t ht
      cases t
      · exact absurd ht (by decide)
      · exact ⟨by simp [updateProgress, resetFrom, stepIdx], by simp⟩
      · exact ⟨by simp [updateProgress, resetFrom, stepIdx], by simp⟩
    · -- s = variables
      have hwf : exec .workflowFile = .ok () := by
        rcases hpre .workflowFile (by decide) (by decide) with h | h
        · simp [stepSkipped] at h
        · exact h
      have hnv : nv = false := by simpa [stepSkipped] using hns
      subst hnv
      have hrun : runSteps exec false ns prev .workflowFile =
          ⟨updateProgress (updateProgress (resetFrom prev .workflowFile)
             .workflowFile .success) .variables .error,
           some e, [.workflowFile, .variables]⟩ := by
        simp [runSteps, runStepsLoop, stepsList, stepIdx, stepSkipped, hwf, hfail]
      rw [hrun]
      refine ⟨by simp [updateProgress], rfl, ?_⟩
      intro t ht
      cases t
      · exact absurd ht (by decide)
      · exact absurd ht (by decide)
      · exact ⟨by simp [updateProgress, resetFrom, stepIdx], by simp⟩
    · -- s = secrets
      have hwf : exec .workflowFile = .ok () := by
        rcases hpre .workflowFile (by decide) (by decide) with h | h
        · simp [stepSkipped] at h
        · exact h
      have hns2 : ns = false := by simpa [stepSkipped] using hns
      subst hns2
      cases nv
      · -- variables executed
        have hv : exec .variables = .ok () := by
          rcases hpre .variables (by decide) (by decide) with h | h
          · simp [stepSkipped] at h
          · exact h
        have hrun : runSteps exec false false prev .workflowFile =
            ⟨updateProgress (updateProgress (updateProgress
               (resetFrom prev .workflowFile) .workflowFile .success)
               .variables .success) .secrets .error,
             some e, [.workflowFile, .variables, .secrets]⟩ := by
          simp [runSteps, runStepsLoop, stepsList, stepIdx, stepSkipped,
            hwf, hv, hfail]
        rw [hrun]
        refine ⟨by simp [updateProgress], rfl, ?_⟩
        intro t ht
        cases t <;> exact absurd ht (by decide)
      · -- variables skipped
        have hrun : runSteps exec true false prev .workflowFile =
            ⟨updateProgress (updateProgress (updateProgress
               (resetFrom prev .workflowFile) .workflowFile .success)
               .variables .success) .secrets .error,
             some e, [.workflowFile, .secrets]⟩ := by
          simp [runSteps, runStepsLoop, stepsList, stepIdx, stepSkipped,
            hwf, hfail]
        rw [hrun]
        refine ⟨by simp [updateProgress], rfl, ?_⟩
        intro t ht
        cases t <;> exact absurd ht (by decide)
  · -- start = variables
    cases s
    · exact absurd hle (by decide)
    · -- s = variables
      have hnv : nv = false := by simpa [stepSkipped] using hns
      subst hnv
      have hrun : runSteps exec false ns prev .variables =
          ⟨updateProgress (resetFrom prev .variables) .variables .error,
           some e, [.variables]⟩ := by
        simp [runSteps, runStepsLoop, stepsList, stepIdx, stepSkipped, hfail]
      rw [hrun]
      refine ⟨by simp [updateProgress], rfl, ?_⟩
      intro t ht
      cases t
      · exact absurd ht (by decide)
      · exact absurd ht (by decide)
      · exact ⟨by simp [updateProgress, resetFrom, stepIdx], by simp⟩
    · -- s = secrets
      have hns2 : ns = false := by simpa [stepSkipped] using hns
      subst hns2
      cases nv
      · -- variables executed
        have hv : exec .variables = .ok () := by
          rcases hpre .variables (by decide) (by decide) with h | h
          · simp [stepSkipped] at h
          · exact h
        have hrun : runSteps exec false false prev .variables =
            ⟨updateProgress (updateProgress (resetFrom prev .variables)
               .variables .success) .secrets .error,
             some e, [.variables, .secrets]⟩ := by
          simp [runSteps, runStepsLoop, stepsList, stepIdx, stepSkipped,
            hv, hfail]
        rw [hrun]
        refine ⟨by simp [updateProgress], rfl, ?_⟩
        intro t ht
        cases t <;> exact absurd ht (by decide)
      · -- variables skipped
        have hrun : runSteps exec true false prev .variables =
            ⟨updateProgress (updateProgress (resetFrom prev .variables)
               .variables .success) .secrets .error,
             some e, [.secrets]⟩ := by
          simp [runSteps, runStepsLoop, stepsList, stepIdx, stepSkipped, hfail]
        rw [hrun]
        refine ⟨by simp [updateProgress], rfl, ?_⟩
        intro t ht
        cases t <;> exact absurd ht (by decide)
  · -- start = secrets
    cases s
    · exact absurd hle (by decide)
    · exact absurd hle (by decide)
    · -- s = secrets
      have hns2 : ns = false := by simpa [stepSkipped] using hns
      subst hns2
      have hrun : runSteps exec nv false prev .secrets =
          ⟨updateProgress (resetFrom prev .secrets) .secrets .error,
           some e, [.secrets]⟩ := by
        simp [runSteps, runStepsLoop, stepsList, stepIdx, stepSkipped, hfail]
      rw [hrun]
      refine ⟨by simp [updateProgress], rfl, ?_⟩
      intro t ht
      cases t <;> exact absurd ht (by decide)

/-- Witness for C1 at concrete inputs: a failing workflowFile executor
records the error and leaves the variables step pending and uninvoked. -/
theorem runSteps_halt_on_failure_witness :
    (runSteps (fun _ => .error "boom") false false initialCommitProgress
        .workflowFile).commitError = some "boom" ∧
    Step.variables ∉ (runSteps (fun _ => .error "boom") false false
        initialCommitProgress .workflowFile).invoked ∧
    (runSteps (fun _ => .error "boom") false false initialCommitProgress
        .workflowFile).progress .variables = .pending := by
  have h := runSteps_halt_on_failure (fun _ => .error "boom") false false
    initialCommitProgress .workflowFile .workflowFile "boom" (by decide) (by decide)
    (fun t h1 h2 => absurd h2 (by cases t <;> decide)) rfl
  exact ⟨h.2.1, (h.2.2 .variables (by decide)).2, (h.2.2 .variables (by decide)).1⟩

/-- C2: `runSteps(fromStep)` resets exactly the steps from `fromStep`
onward to `pending` (earlier steps keep their previous state) and executes
only the steps from `fromStep` onward: `retry(variables)` does not
re-invoke the workflowFile executor, keeps its previous (success) state,
re-invokes the variables executor, and on its success proceeds to invoke
the secrets executor. -/
theorem handleRetry_resume_correctness :
    ∀ (exec : Step → Except String Unit) (prev : CommitProgress),
      exec .variables = .ok () →
      (∀ st t, stepIdx st ≤ stepIdx t → resetFrom prev st t = .pending) ∧
      (∀ st t, stepIdx t < stepIdx st → resetFrom prev st t = prev t) ∧
      Step.workflowFile ∉ (handleRetry exec false false prev .variables).invoked ∧
      (handleRetry exec false false prev .variables).progress .workflowFile =
        prev .workflowFile ∧
      Step.variables ∈ (handleRetry exec false false prev .variables).invoked ∧
      Step.secrets ∈ (handleRetry exec false false prev .variables).invoked := by
  intro exec prev hok
  have hreset1 : ∀ st t, stepIdx st ≤ stepIdx t →
      resetFrom prev st t = .pending := by
    intro st t ht
    simp [resetFrom, ht]
  have hreset2 : ∀ st t, stepIdx t < stepIdx st →
      resetFrom prev st t = prev t := by
    intro st t ht
    simp only [resetFrom]
    rw [if_neg (by omega)]
  rcases hsec : exec Step.secrets with er | u
  · -- secrets executor fails (it was still invoked)
    have hrun : handleRetry exec false false prev .variables =
        ⟨updateProgress (updateProgress (resetFrom prev .variables)
           .variables .success) .secrets .error,
         some er, [.variables, .secrets]⟩ := by
      simp [handleRetry, runSteps, runStepsLoop, stepsList, stepIdx,
        stepSkipped, hok, hsec]
    rw [hrun]
    exact ⟨hreset1, hreset2, by simp,
      by simp [updateProgress, resetFrom, stepIdx], by simp, by simp⟩
  · -- secrets executor succeeds
    have hrun : handleRetry exec false false prev .variables =
        ⟨updateProgress (updateProgress (resetFrom prev .variables)
           .variables .success) .secrets .success,
         none, [.variables, .secrets]⟩ := by
      simp [handleRetry, runSteps, runStepsLoop, stepsList, stepIdx,
        stepSkipped, hok, hsec]
    rw [hrun]
    exact ⟨hreset1, hreset2, by simp,
      by simp [updateProgress, resetFrom, stepIdx], by simp, by simp⟩

/-- Witness for C2 at concrete inputs: on the specification's scenario
[artifact: success, variables: error, secrets: pending], retrying the
variables step skips the workflowFile executor, keeps its success state,
and invokes the variables and secrets executors. -/
theorem handleRetry_resume_correctness_witness :
    Step.workflowFile ∉
      (handleRetry (fun _ => .ok ()) false false retryScenarioProgress
        .variables).invoked ∧
    Step.variables ∈
      (handleRetry (fun _ => .ok ()) false false retryScenarioProgress
        .variables).invoked ∧
    Step.secrets ∈
      (handleRetry (fun _ => .ok ()) false false retryScenarioProgress
        .variables).invoked ∧
    (handleRetry (fun _ => .ok ()) false false retryScenarioProgress
        .variables).progress .workflowFile = .success := by
  have h := handleRetry_resume_correctness (fun _ => .ok ())
    retryScenarioProgress rfl
  exact ⟨h.2.2.1, h.2.2.2.2.1, h.2.2.2.2.2, h.2.2.2.1⟩

/-- C8: the restricted command-execution handler spawns a child process
only when the request is a POST with a valid token, the command's first
whitespace token is `vercel` or `railway`, and the remaining tokens extend
one of that tool's allowlisted subcommand token prefixes; every command
not matching the allowlist yields an error response, never a spawn. -/
theorem handler_spawns_only_allowlisted :
    ∀ (method : String) (command token : Option String) (cli : String)
      (args : List String),
      (handler method command token = .spawned cli args →
        method = "POST" ∧
        (∃ c, command = some c ∧ splitWs c = cli :: args) ∧
        (cli = "vercel" ∨ cli = "railway") ∧
        ∃ allowedCmdParts ∈ COMMAND_ALLOWLIST cli,
          allowedCmdParts.isPrefixOf args = true) ∧
      ((∀ c, command = some c → ∀ cli2 args2, splitWs c = cli2 :: args2 →
          ¬((cli2 = "vercel" ∨ cli2 = "railway") ∧
            ∃ allowedCmdParts ∈ COMMAND_ALLOWLIST cli2,
              allowedCmdParts.isPrefixOf args2 = true)) →
        ∃ st msg, handler method command token = .rejected st msg) := by
  intro method command token cli args
  have key : ∀ (cl : String) (ar : List String),
      handler method command token = .spawned cl ar →
      method = "POST" ∧
      (∃ c, command = some c ∧ splitWs c = cl :: ar) ∧
      (cl = "vercel" ∨ cl = "railway") ∧
      ∃ allowedCmdParts ∈ COMMAND_ALLOWLIST cl,
        allowedCmdParts.isPrefixOf ar = true := by
    intro cl ar h
    unfold handler at h
    split at h
    · simp at h
    · split at h
      · simp at h
      · split at h
        · simp at h
        · split at h
          · simp at h
          · split at h
            · simp at h
            · split at h
              · simp at h
              · split at h
                · split at h
                  · injection h with h1 h2
                    subst h1
                    subst h2
                    rename_i heq hcli hany
                    refine ⟨by tauto, ⟨_, rfl, heq⟩, hcli, ?_⟩
                    simpa [List.any_eq_true] using hany
                  · simp at h
                · simp at h
  refine ⟨key cli args, ?_⟩
  intro hno
  cases hres : handler method command token with
  | rejected st msg => exact ⟨st, msg, rfl⟩
  | spawned cl ar =>
      obtain ⟨hm, ⟨c, hc, hsp⟩, hcli, hal⟩ := key cl ar hres
      exact absurd ⟨hcli, hal⟩ (hno c hc cl ar hsp)

/-- Witness for C8 at concrete inputs: `vercel projects list` is spawned,
so by the theorem its tokens match the allowlist. -/
theorem handler_spawns_only_allowlisted_witness :
    ("vercel" = "vercel" ∨ "vercel" = "railway") ∧
    ∃ allowedCmdParts ∈ COMMAND_ALLOWLIST "vercel",
      allowedCmdParts.isPrefixOf ["projects", "list"] = true := by
  have h := (handler_spawns_only_allowlisted "POST" (some "vercel projects list")
    (some "tok") "vercel" ["projects", "list"]).1 (by decide)
  exact ⟨h.2.2.1, h.2.2.2⟩

end AutoFlow
